import Mathlib

/-
  Verification of the event aggregation and debouncing engine of the
  dns-sd library (src/index.cts): address normalization, record merging,
  the browse-session service table with debounce timers, and the
  advertise-session relay.
-/

namespace DnsSd

/-- Model of `addr.replace(/%[^%]+$/, '')` on the character list of the
string: the regex matches a final segment consisting of the last `%`
followed by at least one non-`%` character, and removes it; if the string
has no `%`, or ends in `%`, there is no match and the string is unchanged
(src/index.cts lines 79 and 92). -/
def stripScope (cs : List Char) : List Char :=
  match cs.reverse.dropWhile (fun c => c ≠ '%') with
  | [] => cs
  | _ :: preRev =>
    if cs.reverse.takeWhile (fun c => c ≠ '%') = [] then cs else preRev.reverse

/-- The address normalizer applied to each address string. -/
def normalizeAddr (s : String) : String :=
  String.mk (stripScope s.data)

/-- One insertion into a JavaScript `Set`: add at the end unless already
present. -/
def dedupStep (acc : List String) (x : String) : List String :=
  if x ∈ acc then acc else acc ++ [x]

/-- Model of JavaScript `Array.from(new Set(l))`: iterate in order, keep
the first occurrence of each element. -/
def dedupFirst (l : List String) : List String :=
  l.foldl dedupStep []

/-- Lookup in a JavaScript `Map` modelled as an association list
(first matching key wins; real maps never hold a key twice). -/
def mapGet {α : Type} : List (String × α) → String → Option α
  | [], _ => none
  | (k', v) :: rest, k => if k' = k then some v else mapGet rest k

/-- Model of `Map.set` and object-spread assignment: replace the value at an existing
key in place, otherwise append the new binding at the end. -/
def mapSet {α : Type} : List (String × α) → String → α → List (String × α)
  | [], k, v => [(k, v)]
  | (k', v') :: rest, k, v =>
    if k' = k then (k, v) :: rest else (k', v') :: mapSet rest k v

/-- Model of `Map.delete`: remove the (unique) binding for a key. -/
def mapDel {α : Type} : List (String × α) → String → List (String × α)
  | [], _ => []
  | (k', v') :: rest, k => if k' = k then rest else (k', v') :: mapDel rest k

/-- The `Service` payload type of src/index.cts (lines 27-36); `txt` and
`ttl` are optional, a TXT record is a string-keyed object. -/
structure Service where
  name : String
  type : String
  domain : String
  hostName : String
  addresses : List String
  port : Nat
  txt : Option (List (String × String))
  ttl : Option Nat
deriving DecidableEq

/-- The service-table key built at src/index.cts lines 71 and 113. -/
def serviceKey (s : Service) : String :=
  s.name ++ "|" ++ s.type ++ "|" ++ s.domain

/-- Object spread `{ ...old, ...incoming }` for TXT records: keys of
`old` in place, each incoming binding overwriting or appended. -/
def txtMerge (old incoming : List (String × String)) : List (String × String) :=
  incoming.foldl (fun acc kv => mapSet acc kv.1 kv.2) old

/-- Key lookup in an optional TXT record (an absent record has no keys). -/
def lookupTxt (o : Option (List (String × String))) (k : String) : Option String :=
  match o with
  | some l => mapGet l k
  | none => none

/-- Merge of an incoming partial record into an existing table entry
(src/index.cts lines 75-88): union raw address strings via a `Set`, then
normalize every member; overwrite `hostName` and `port`; spread-merge
`txt` when the incoming one is present; overwrite `ttl` only when the
incoming value is truthy (present and non-zero). -/
def mergeService (ex incoming : Service) : Service :=
  { ex with
    addresses := (dedupFirst (ex.addresses ++ incoming.addresses)).map normalizeAddr
    hostName := incoming.hostName
    port := incoming.port
    txt := match incoming.txt with
      | some t => some (txtMerge (ex.txt.getD []) t)
      | none => ex.txt
    ttl := match incoming.ttl with
      | some n => if n ≠ 0 then some n else ex.ttl
      | none => ex.ttl }

/-- Creation of a fresh table entry (src/index.cts lines 90-93):
`{...incoming}` with `Array.from(service.addresses).map(normalize)` —
note `Array.from` of an array copies it without deduplication. -/
def initService (incoming : Service) : Service :=
  { incoming with addresses := incoming.addresses.map normalizeAddr }

/-- Raw backend events delivered to the browse callback
(src/index.cts lines 68-130). -/
inductive RawEvent where
  | found (s : Service)
  | lost (s : Service)
  | error (msg : String)
deriving DecidableEq

/-- Caller-visible browse emissions. -/
inductive Emission where
  | serviceFound (s : Service)
  | serviceLost (s : Service)
  | error (msg : String)
deriving DecidableEq

/-- Browse-session state: the `_stopped` flag, the `_services` map, and
the `_pendingEmit` map of debounce deadlines (each timeout of
src/index.cts line 101 is modelled by its absolute fire time; the list is
kept in timeout-creation order, which is the order `setTimeout`
callbacks with equal deadlines run). -/
structure BrowseState where
  stopped : Bool
  services : List (String × Service)
  pendingEmit : List (String × Nat)
deriving DecidableEq

def DEBOUNCE_TIMEOUT : Nat := 100

def initB : BrowseState :=
  { stopped := false, services := [], pendingEmit := [] }

/-- What a single debounce timeout does when it fires (src/index.cts
lines 101-107), apart from removing itself from `_pendingEmit`: emit
`serviceFound` with the current aggregate if the key is still in the
table, the session is not stopped, and the address list is non-empty. -/
def emitDue (st : BrowseState) (p : String × Nat) : Option (Nat × Emission) :=
  match mapGet st.services p.1 with
  | some svc =>
    if st.stopped = false ∧ 0 < svc.addresses.length
    then some (p.2, Emission.serviceFound svc) else none
  | none => none

/-- Fire every pending timeout whose deadline has passed by `now`, in
creation order; firing removes the timeout but never touches the table
or the stopped flag. -/
def fireDue (st : BrowseState) (now : Nat) : BrowseState × List (Nat × Emission) :=
  ({ st with pendingEmit := st.pendingEmit.filter (fun p => now < p.2) },
   (st.pendingEmit.filter (fun p => p.2 ≤ now)).filterMap (emitDue st))

/-- Fire every remaining pending timeout, however late. -/
def fireAll (st : BrowseState) : BrowseState × List (Nat × Emission) :=
  ({ st with pendingEmit := [] }, st.pendingEmit.filterMap (emitDue st))

/-- Model of `DnsSdBrowse.stop` (src/index.cts lines 134-144): on the first call
set `_stopped`, clear every pending timeout and release the backend
handle (the boolean records whether `addon.stopBrowse` was invoked);
afterwards a no-op. -/
def stopB (st : BrowseState) : BrowseState × Bool :=
  if st.stopped then (st, false)
  else ({ st with stopped := true, pendingEmit := [] }, true)

/-- The browse callback body (src/index.cts lines 65-131) for one raw
event arriving at absolute time `now`: discarded entirely when stopped;
`found` merges into the table and (re)schedules the key's debounce
timeout; `lost` on a present key deletes the entry, cancels its timeout
and emits `serviceLost` with the stored aggregate, and is a no-op on an
absent key; `error` is relayed. -/
def processRaw (st : BrowseState) (now : Nat) (e : RawEvent) :
    BrowseState × List (Nat × Emission) :=
  if st.stopped then (st, [])
  else
    match e with
    | RawEvent.found incoming =>
      let k := serviceKey incoming
      let svc := match mapGet st.services k with
        | some ex => mergeService ex incoming
        | none => initService incoming
      ({ st with
          services := mapSet st.services k svc,
          pendingEmit := st.pendingEmit.filter (fun p => p.1 ≠ k)
            ++ [(k, now + DEBOUNCE_TIMEOUT)] }, [])
    | RawEvent.lost l =>
      let k := serviceKey l
      match mapGet st.services k with
      | some svc =>
        ({ st with
            services := mapDel st.services k,
            pendingEmit := st.pendingEmit.filter (fun p => p.1 ≠ k) },
         [(now, Emission.serviceLost svc)])
      | none => (st, [])
    | RawEvent.error m => (st, [(now, Emission.error m)])

/-- An action on a browse session: a raw backend event or a `stop()`
call by the owner. -/
inductive BAction where
  | raw (e : RawEvent)
  | stop
deriving DecidableEq

def applyAction (st : BrowseState) (now : Nat) : BAction → BrowseState × List (Nat × Emission)
  | BAction.raw e => processRaw st now e
  | BAction.stop => ((stopB st).1, [])

/-- Run a timed trace of actions: before each action, due timeouts fire;
after the last action every remaining timeout eventually fires. Emissions
are tagged with the time they happen. -/
def runTrace (st : BrowseState) : List (Nat × BAction) → BrowseState × List (Nat × Emission)
  | [] => fireAll st
  | (t, a) :: rest =>
    let r1 := fireDue st t
    let r2 := applyAction r1.1 t a
    let r3 := runTrace r2.1 rest
    (r3.1, r1.2 ++ r2.2 ++ r3.2)

/-- Raw backend events of an advertise session (src/index.cts 166-177). -/
inductive AdvRawEvent where
  | registered (name : String)
  | error (msg : String)
deriving DecidableEq

/-- Caller-visible advertise emissions. -/
inductive AdvEmission where
  | registered (name : String)
  | error (msg : String)
deriving DecidableEq

/-- Advertise-session state is just the `_stopped` flag. -/
structure AdvertiseState where
  stopped : Bool
deriving DecidableEq

/-- The advertise callback (src/index.cts 166-177): verbatim relay of
both event kinds while not stopped, nothing afterwards. -/
def advProcessRaw (st : AdvertiseState) (e : AdvRawEvent) : List AdvEmission :=
  if st.stopped then []
  else
    match e with
    | AdvRawEvent.registered n => [AdvEmission.registered n]
    | AdvRawEvent.error m => [AdvEmission.error m]

/-- The one-to-one translation the relay performs on each event. -/
def advTranslate : AdvRawEvent → AdvEmission
  | AdvRawEvent.registered n => AdvEmission.registered n
  | AdvRawEvent.error m => AdvEmission.error m

/-- Model of `DnsSdAdvertisement.stop` (src/index.cts 181-186); the boolean
records whether `addon.stopAdvertise` was invoked. -/
def stopAdv (st : AdvertiseState) : AdvertiseState × Bool :=
  if st.stopped then (st, false) else ({ stopped := true }, true)

inductive AdvAction where
  | raw (e : AdvRawEvent)
  | stop
deriving DecidableEq

def runAdvTrace (st : AdvertiseState) : List AdvAction → AdvertiseState × List AdvEmission
  | [] => (st, [])
  | AdvAction.raw e :: rest =>
    let r := runAdvTrace st rest
    (r.1, advProcessRaw st e ++ r.2)
  | AdvAction.stop :: rest =>
    runAdvTrace (stopAdv st).1 rest

/-- Number of times the browse backend handle is released over `n`
consecutive `stop()` calls. -/
def stopTimesB (st : BrowseState) : Nat → Nat
  | 0 => 0
  | n + 1 => (if (stopB st).2 then 1 else 0) + stopTimesB (stopB st).1 n

/-- Number of times the advertise backend handle is released over `n`
consecutive `stop()` calls. -/
def stopTimesAdv (st : AdvertiseState) : Nat → Nat
  | 0 => 0
  | n + 1 => (if (stopAdv st).2 then 1 else 0) + stopTimesAdv (stopAdv st).1 n

/-- A service record whose every address is free of `%` (so, one with no
interface-scope suffixes anywhere). -/
def pfreeService (s : Service) : Prop :=
  ∀ a ∈ s.addresses, '%' ∉ a.data

/-- A burst of `found` events as a timed action trace. -/
def burstTrace (events : List (Nat × Service)) : List (Nat × BAction) :=
  events.map (fun p => (p.1, BAction.raw (RawEvent.found p.2)))

/-- Fold the merge over the later events of a burst. -/
def foldMerge (a : Service) (events : List (Nat × Service)) : Service :=
  events.foldl (fun acc p => mergeService acc p.2) a

/-- Every event of the list arrives strictly after the previous one and
strictly inside its debounce window. -/
def withinWindow : Nat → List (Nat × Service) → Prop
  | _, [] => True
  | tPrev, (t, _) :: rest =>
    tPrev < t ∧ t < tPrev + DEBOUNCE_TIMEOUT ∧ withinWindow t rest

/-- Arrival time of the last event of a burst (`t0` for an empty one). -/
def lastTime : Nat → List (Nat × Service) → Nat
  | t0, [] => t0
  | _, (t, _) :: rest => lastTime t rest

/-- A concrete service value used in the example runs. -/
def mkService (nm ty dom : String) (addrs : List String) : Service :=
  { name := nm, type := ty, domain := dom, hostName := "h", addresses := addrs,
    port := 80, txt := none, ttl := none }

def exScoped : Service := mkService ("s") ("_t") ("local") ["fe80::1%eth0"]

def exScoped2 : Service := mkService ("s") ("_t") ("local") ["fe80::1%eth0", "fe80::1%wlan0"]

def exEmptyAddrs : Service := mkService ("s") ("_t") ("local") []

def exA : Service := mkService ("s") ("_t") ("local") ["A"]

def exX : Service := mkService ("s") ("_t") ("local") ["X"]

def exY : Service := mkService ("s") ("_t") ("local") ["Y"]

def exAB : Service := mkService ("s") ("_t") ("local") ["A", "B"]

def exBC : Service := mkService ("s") ("_t") ("local") ["B", "C"]

def exPipe1 : Service := mkService ("a|b") ("c") ("d") ["A"]

def exPipe2 : Service := mkService ("a") ("b|c") ("d") ["B"]

/-- An aggregate with TXT record `a=1`. -/
def exTxtOld : Service :=
  { name := "s", type := "_t", domain := "local", hostName := "h1",
    addresses := ["A"], port := 80, txt := some [("a", "1")], ttl := some 60 }

/-- An incoming update with TXT record `a=2, b=3`. -/
def exTxtNew : Service :=
  { name := "s", type := "_t", domain := "local", hostName := "h2",
    addresses := ["B"], port := 81, txt := some [("a", "2"), ("b", "3")],
    ttl := some 120 }

/-- A browse state that is already stopped yet still holds a table entry
and a scheduled timeout (stronger than any reachable stopped state). -/
def exStoppedB : BrowseState :=
  { stopped := true, services := [("k", exX)], pendingEmit := [("k", 100)] }

/-- A trace of raw events and one more `stop()` arriving at a session. -/
def exLateTrace : List (Nat × BAction) :=
  [(5, BAction.raw (RawEvent.found exY)),
   (200, BAction.raw (RawEvent.error ("late"))),
   (250, BAction.stop)]

/-- A browse state holding one live entry for `exX` with a pending
timeout, used to exercise the `lost` transition. -/
def exLiveB : BrowseState :=
  { stopped := false, services := [(serviceKey exX, exX)],
    pendingEmit := [(serviceKey exX, 100)] }

theorem dedup_go_mem (l : List String) :
    ∀ (acc : List String) (a : String),
      a ∈ l.foldl dedupStep acc ↔ a ∈ acc ∨ a ∈ l := by
  induction l with
  | nil => intro acc a; simp
  | cons x xs ih =>
    intro acc a
    show a ∈ xs.foldl dedupStep (dedupStep acc x) ↔ _
    rw [ih]
    unfold dedupStep
    by_cases hx : x ∈ acc
    · simp only [if_pos hx, List.mem_cons]
      constructor
      · rintro (h | h)
        · exact Or.inl h
        · exact Or.inr (Or.inr h)
      · rintro (h | h | h)
        · exact Or.inl h
        · exact Or.inl (h ▸ hx)
        · exact Or.inr h
    · simp only [if_neg hx, List.mem_append, List.mem_singleton, List.mem_cons]
      tauto

theorem dedup_go_nodup (l : List String) :
    ∀ acc : List String, acc.Nodup → (l.foldl dedupStep acc).Nodup := by
  induction l with
  | nil => intro acc h; exact h
  | cons x xs ih =>
    intro acc h
    apply ih
    unfold dedupStep
    by_cases hx : x ∈ acc
    · simpa [hx]
    · rw [if_neg hx, List.nodup_append]
      refine ⟨h, List.nodup_singleton x, ?_⟩
      intro a ha hb
      rw [List.mem_singleton] at hb
      exact hx (hb ▸ ha)

theorem dedup_go_absorb (l : List String) :
    ∀ acc : List String, (∀ x ∈ l, x ∈ acc) → l.foldl dedupStep acc = acc := by
  induction l with
  | nil => intro acc _; rfl
  | cons x xs ih =>
    intro acc h
    show xs.foldl dedupStep (dedupStep acc x) = acc
    rw [dedupStep, if_pos (h x (List.mem_cons_self x xs))]
    exact ih acc fun y hy => h y (List.mem_cons_of_mem x hy)

theorem dedup_go_extend (l : List String) :
    ∀ acc : List String, (acc ++ l).Nodup → l.foldl dedupStep acc = acc ++ l := by
  induction l with
  | nil => intro acc _; simp
  | cons x xs ih =>
    intro acc h
    have hx : x ∉ acc := by
      intro hmem
      exact (List.disjoint_of_nodup_append h) hmem (List.mem_cons_self x xs)
    show xs.foldl dedupStep (dedupStep acc x) = acc ++ x :: xs
    rw [dedupStep, if_neg hx]
    have := ih (acc ++ [x]) (by simpa using h)
    simpa using this

theorem mem_dedupFirst (l : List String) (a : String) :
    a ∈ dedupFirst l ↔ a ∈ l := by
  unfold dedupFirst
  rw [dedup_go_mem]
  simp

theorem nodup_dedupFirst (l : List String) : (dedupFirst l).Nodup :=
  dedup_go_nodup l [] List.nodup_nil

theorem dedupFirst_eq_self (l : List String) (h : l.Nodup) : dedupFirst l = l := by
  unfold dedupFirst
  simpa using dedup_go_extend l [] (by simpa using h)

theorem dedupFirst_append_absorb (l ys : List String) (hnd : l.Nodup)
    (hsub : ∀ y ∈ ys, y ∈ l) : dedupFirst (l ++ ys) = l := by
  unfold dedupFirst
  rw [List.foldl_append]
  have h1 : l.foldl dedupStep [] = l := dedupFirst_eq_self l hnd
  rw [show l.foldl dedupStep [] = l from h1]
  exact dedup_go_absorb ys l hsub

theorem mapGet_mapSet_self {α : Type} (m : List (String × α)) (k : String) (v : α) :
    mapGet (mapSet m k v) k = some v := by
  induction m with
  | nil => simp [mapSet, mapGet]
  | cons p rest ih =>
    by_cases h : p.1 = k
    · simp [mapSet, mapGet, h]
    · simp [mapSet, mapGet, h, ih]

theorem mapGet_mapSet_ne {α : Type} (m : List (String × α)) (k k' : String) (v : α)
    (h : k' ≠ k) : mapGet (mapSet m k v) k' = mapGet m k' := by
  induction m with
  | nil => simp [mapSet, mapGet, Ne.symm h]
  | cons p rest ih =>
    by_cases hp : p.1 = k
    · simp [mapSet, mapGet, hp, Ne.symm h, h]
    · by_cases hq : p.1 = k'
      · simp [mapSet, mapGet, hp, hq, h]
      · simp [mapSet, mapGet, hp, hq, ih]

theorem mapGet_eq_none_of_not_mem {α : Type} (m : List (String × α)) (k : String)
    (h : k ∉ m.map Prod.fst) : mapGet m k = none := by
  induction m with
  | nil => rfl
  | cons p rest ih =>
    simp only [List.map_cons, List.mem_cons, not_or] at h
    have hp : ¬ p.1 = k := fun he => h.1 he.symm
    simp [mapGet, hp, ih h.2]

theorem mapGet_mapDel_self {α : Type} (m : List (String × α)) (k : String)
    (hnd : (m.map Prod.fst).Nodup) : mapGet (mapDel m k) k = none := by
  induction m with
  | nil => rfl
  | cons p rest ih =>
    simp only [List.map_cons, List.nodup_cons] at hnd
    by_cases hp : p.1 = k
    · simp only [mapDel, if_pos hp]
      exact mapGet_eq_none_of_not_mem rest k (hp ▸ hnd.1)
    · simp [mapDel, mapGet, hp, ih hnd.2]

theorem takeWhile_append_all (p : Char → Bool) (l1 l2 : List Char)
    (h : ∀ x ∈ l1, p x = true) :
    (l1 ++ l2).takeWhile p = l1 ++ l2.takeWhile p := by
  induction l1 with
  | nil => simp
  | cons x xs ih =>
    have hx : p x = true := h x (List.mem_cons_self x xs)
    simp only [List.cons_append, List.takeWhile_cons, hx, if_true]
    rw [ih fun y hy => h y (List.mem_cons_of_mem x hy)]

theorem dropWhile_append_all (p : Char → Bool) (l1 l2 : List Char)
    (h : ∀ x ∈ l1, p x = true) :
    (l1 ++ l2).dropWhile p = l2.dropWhile p := by
  induction l1 with
  | nil => simp
  | cons x xs ih =>
    have hx : p x = true := h x (List.mem_cons_self x xs)
    simp only [List.cons_append, List.dropWhile_cons, hx, if_true]
    exact ih fun y hy => h y (List.mem_cons_of_mem x hy)

theorem stripScope_of_not_mem (cs : List Char) (h : '%' ∉ cs) : stripScope cs = cs := by
  have hall : ∀ x ∈ cs.reverse, (fun c => decide (c ≠ '%')) x = true := by
    intro x hx
    rw [List.mem_reverse] at hx
    simp only [decide_eq_true_eq, ne_eq]
    exact fun he => h (he ▸ hx)
  have hdrop : cs.reverse.dropWhile (fun c => decide (c ≠ '%')) = [] := by
    rw [List.dropWhile_eq_nil_iff]
    exact hall
  unfold stripScope
  rw [hdrop]

theorem percent_head_drop (l : List Char) :
    ('%' :: l).dropWhile (fun c => decide (c ≠ '%')) = '%' :: l := by
  simp [List.dropWhile_cons]

theorem percent_head_take (l : List Char) :
    ('%' :: l).takeWhile (fun c => decide (c ≠ '%')) = [] := by
  simp [List.takeWhile_cons]

theorem reverse_decomp (pre suf : List Char) :
    (pre ++ '%' :: suf).reverse = suf.reverse ++ '%' :: pre.reverse := by
  simp

theorem stripScope_decomp (pre suf : List Char) (h1 : '%' ∉ suf) (h2 : suf ≠ []) :
    stripScope (pre ++ '%' :: suf) = pre := by
  have hall : ∀ x ∈ suf.reverse, (fun c => decide (c ≠ '%')) x = true := by
    intro x hx
    rw [List.mem_reverse] at hx
    simp only [decide_eq_true_eq, ne_eq]
    exact fun he => h1 (he ▸ hx)
  have hdrop : (pre ++ '%' :: suf).reverse.dropWhile (fun c => decide (c ≠ '%'))
      = '%' :: pre.reverse := by
    rw [reverse_decomp, dropWhile_append_all _ _ _ hall, percent_head_drop]
  have htake : (pre ++ '%' :: suf).reverse.takeWhile (fun c => decide (c ≠ '%'))
      = suf.reverse := by
    rw [reverse_decomp, takeWhile_append_all _ _ _ hall, percent_head_take, List.append_nil]
  unfold stripScope
  rw [hdrop, htake]
  have hsr : suf.reverse ≠ [] := by simpa using h2
  show (if suf.reverse = [] then pre ++ '%' :: suf else pre.reverse.reverse) = pre
  rw [if_neg hsr, List.reverse_reverse]

theorem stripScope_trailing_percent (pre : List Char) :
    stripScope (pre ++ ['%']) = pre ++ ['%'] := by
  have hdrop : (pre ++ ['%']).reverse.dropWhile (fun c => decide (c ≠ '%'))
      = '%' :: pre.reverse := by
    rw [List.reverse_append]
    simp [percent_head_drop]
  have htake : (pre ++ ['%']).reverse.takeWhile (fun c => decide (c ≠ '%')) = [] := by
    rw [List.reverse_append]
    simp [percent_head_take]
  unfold stripScope
  rw [hdrop, htake]
  simp

theorem mk_data (s : String) : String.mk s.data = s := rfl

theorem normalizeAddr_of_not_mem (s : String) (h : '%' ∉ s.data) :
    normalizeAddr s = s := by
  unfold normalizeAddr
  rw [stripScope_of_not_mem s.data h, mk_data]

theorem normalizeAddr_decomp (s : String) (pre suf : List Char)
    (hd : s.data = pre ++ '%' :: suf) (h1 : '%' ∉ suf) (h2 : suf ≠ []) :
    normalizeAddr s = String.mk pre := by
  unfold normalizeAddr
  rw [hd, stripScope_decomp pre suf h1 h2]

theorem normalizeAddr_trailing_percent (s : String) (pre : List Char)
    (hd : s.data = pre ++ ['%']) : normalizeAddr s = s := by
  unfold normalizeAddr
  rw [hd, stripScope_trailing_percent, ← hd, mk_data]

theorem map_normalizeAddr_of_pfree (l : List String) (h : ∀ a ∈ l, '%' ∉ a.data) :
    l.map normalizeAddr = l := by
  induction l with
  | nil => rfl
  | cons x xs ih =>
    rw [List.map_cons, normalizeAddr_of_not_mem x (h x (List.mem_cons_self x xs)),
      ih fun y hy => h y (List.mem_cons_of_mem x hy)]

theorem mergeService_addresses_pfree (ex incoming : Service)
    (hex : pfreeService ex) (hinc : pfreeService incoming) :
    (mergeService ex incoming).addresses
      = dedupFirst (ex.addresses ++ incoming.addresses) := by
  show (dedupFirst (ex.addresses ++ incoming.addresses)).map normalizeAddr = _
  apply map_normalizeAddr_of_pfree
  intro a ha
  rw [mem_dedupFirst, List.mem_append] at ha
  rcases ha with h | h
  · exact hex a h
  · exact hinc a h

theorem initService_addresses_pfree (incoming : Service) (h : pfreeService incoming) :
    (initService incoming).addresses = incoming.addresses :=
  map_normalizeAddr_of_pfree incoming.addresses h

theorem mergeService_pfree (ex incoming : Service)
    (hex : pfreeService ex) (hinc : pfreeService incoming) :
    pfreeService (mergeService ex incoming) := by
  intro a ha
  rw [mergeService_addresses_pfree ex incoming hex hinc, mem_dedupFirst,
    List.mem_append] at ha
  rcases ha with h | h
  · exact hex a h
  · exact hinc a h

theorem initService_pfree (incoming : Service) (h : pfreeService incoming) :
    pfreeService (initService incoming) := by
  intro a ha
  rw [initService_addresses_pfree incoming h] at ha
  exact h a ha

theorem mapGet_txtMerge (t : List (String × String)) :
    ∀ (old : List (String × String)), (t.map Prod.fst).Nodup → ∀ key : String,
      mapGet (txtMerge old t) key
        = match mapGet t key with
          | some v => some v
          | none => mapGet old key := by
  induction t with
  | nil => intro old _ key; rfl
  | cons kv rest ih =>
    intro old hnd key
    simp only [List.map_cons, List.nodup_cons] at hnd
    have hstep : txtMerge old (kv :: rest) = txtMerge (mapSet old kv.1 kv.2) rest := rfl
    rw [hstep, ih (mapSet old kv.1 kv.2) hnd.2 key]
    by_cases hk : kv.1 = key
    · have hrest : mapGet rest key = none :=
        mapGet_eq_none_of_not_mem rest key (hk ▸ hnd.1)
      have hcons : mapGet (kv :: rest) key = some kv.2 := by
        simp [mapGet, hk]
      rw [hrest, hcons]
      show mapGet (mapSet old kv.1 kv.2) key = some kv.2
      rw [hk, mapGet_mapSet_self]
    · have hcons : mapGet (kv :: rest) key = mapGet rest key := by
        simp [mapGet, hk]
      rw [hcons]
      cases hr : mapGet rest key with
      | some v => rfl
      | none =>
        show mapGet (mapSet old kv.1 kv.2) key = mapGet old key
        exact mapGet_mapSet_ne old kv.1 key kv.2 fun he => hk he.symm

theorem foldMerge_nil (a : Service) : foldMerge a [] = a := rfl

theorem foldMerge_cons (a : Service) (p : Nat × Service) (rest : List (Nat × Service)) :
    foldMerge a (p :: rest) = foldMerge (mergeService a p.2) rest := rfl

theorem foldMerge_pfree (rest : List (Nat × Service)) :
    ∀ a : Service, pfreeService a → (∀ p ∈ rest, pfreeService p.2) →
      pfreeService (foldMerge a rest) := by
  induction rest with
  | nil => intro a ha _; exact ha
  | cons p ps ih =>
    intro a ha hr
    rw [foldMerge_cons]
    exact ih _ (mergeService_pfree a p.2 ha (hr p (List.mem_cons_self p ps)))
      fun q hq => hr q (List.mem_cons_of_mem p hq)

theorem foldMerge_mem (rest : List (Nat × Service)) :
    ∀ a : Service, pfreeService a → (∀ p ∈ rest, pfreeService p.2) → ∀ x : String,
      x ∈ (foldMerge a rest).addresses
        ↔ x ∈ a.addresses ∨ ∃ p ∈ rest, x ∈ p.2.addresses := by
  induction rest with
  | nil => intro a _ _ x; simp [foldMerge_nil]
  | cons p ps ih =>
    intro a ha hr x
    rw [foldMerge_cons,
      ih _ (mergeService_pfree a p.2 ha (hr p (List.mem_cons_self p ps)))
        (fun q hq => hr q (List.mem_cons_of_mem p hq)) x,
      mergeService_addresses_pfree a p.2 ha (hr p (List.mem_cons_self p ps)),
      mem_dedupFirst, List.mem_append]
    constructor
    · rintro ((h | h) | ⟨q, hq, hx⟩)
      · exact Or.inl h
      · exact Or.inr ⟨p, List.mem_cons_self p ps, h⟩
      · exact Or.inr ⟨q, List.mem_cons_of_mem p hq, hx⟩
    · rintro (h | ⟨q, hq, hx⟩)
      · exact Or.inl (Or.inl h)
      · rcases List.mem_cons.mp hq with rfl | hq'
        · exact Or.inl (Or.inr hx)
        · exact Or.inr ⟨q, hq', hx⟩

theorem emitDue_stopped (st : BrowseState) (p : String × Nat)
    (h : st.stopped = true) : emitDue st p = none := by
  unfold emitDue
  cases mapGet st.services p.1 with
  | none => rfl
  | some svc => simp [h]

theorem fireDue_stopped (st : BrowseState) (t : Nat) (h : st.stopped = true) :
    (fireDue st t).2 = [] ∧ (fireDue st t).1.stopped = true := by
  constructor
  · show List.filterMap (emitDue st) _ = []
    rw [List.filterMap_eq_nil_iff]
    intro p _
    exact emitDue_stopped st p h
  · exact h

theorem fireAll_stopped (st : BrowseState) (h : st.stopped = true) :
    (fireAll st).2 = [] ∧ (fireAll st).1.stopped = true := by
  constructor
  · show List.filterMap (emitDue st) _ = []
    rw [List.filterMap_eq_nil_iff]
    intro p _
    exact emitDue_stopped st p h
  · exact h

theorem processRaw_stopped (st : BrowseState) (now : Nat) (e : RawEvent)
    (h : st.stopped = true) : processRaw st now e = (st, []) := by
  unfold processRaw
  rw [if_pos h]

theorem stopB_of_stopped (st : BrowseState) (h : st.stopped = true) :
    stopB st = (st, false) := by
  unfold stopB
  rw [if_pos h]

theorem applyAction_stopped (st : BrowseState) (now : Nat) (a : BAction)
    (h : st.stopped = true) : applyAction st now a = (st, []) := by
  cases a with
  | raw e => exact processRaw_stopped st now e h
  | stop => show ((stopB st).1, []) = (st, []); rw [stopB_of_stopped st h]

theorem runTrace_stopped (tr : List (Nat × BAction)) :
    ∀ st : BrowseState, st.stopped = true →
      (runTrace st tr).2 = [] ∧ (runTrace st tr).1.stopped = true := by
  induction tr with
  | nil =>
    intro st h
    exact fireAll_stopped st h
  | cons p rest ih =>
    obtain ⟨t, a⟩ := p
    intro st h
    obtain ⟨h1, h2⟩ := fireDue_stopped st t h
    have h3 := applyAction_stopped (fireDue st t).1 t a h2
    obtain ⟨h4, h5⟩ := ih (fireDue st t).1 h2
    simp only [runTrace]
    rw [h3]
    constructor
    · simp [h1, h4]
    · exact h5

theorem burstTrace_cons (t : Nat) (s : Service) (rest : List (Nat × Service)) :
    burstTrace ((t, s) :: rest)
      = (t, BAction.raw (RawEvent.found s)) :: burstTrace rest := rfl

theorem runTrace_cons (st : BrowseState) (t : Nat) (a : BAction)
    (rest : List (Nat × BAction)) :
    runTrace st ((t, a) :: rest)
      = ((runTrace (applyAction (fireDue st t).1 t a).1 rest).1,
         (fireDue st t).2 ++ (applyAction (fireDue st t).1 t a).2
           ++ (runTrace (applyAction (fireDue st t).1 t a).1 rest).2) := rfl

theorem runTrace_burst_go (k : String) (rest : List (Nat × Service)) :
    ∀ (aggr : Service) (tPrev : Nat),
      withinWindow tPrev rest →
      (∀ p ∈ rest, serviceKey p.2 = k) →
      (foldMerge aggr rest).addresses ≠ [] →
      runTrace { stopped := false, services := [(k, aggr)],
                 pendingEmit := [(k, tPrev + DEBOUNCE_TIMEOUT)] } (burstTrace rest)
        = ({ stopped := false, services := [(k, foldMerge aggr rest)],
             pendingEmit := [] },
           [(lastTime tPrev rest + DEBOUNCE_TIMEOUT,
             Emission.serviceFound (foldMerge aggr rest))]) := by
  induction rest with
  | nil =>
    intro aggr tPrev _ _ hne
    have hpos : 0 < aggr.addresses.length := List.length_pos.mpr hne
    show fireAll _ = _
    unfold fireAll
    simp [emitDue, mapGet, hpos, foldMerge_nil, lastTime]
  | cons p ps ih =>
    obtain ⟨t, svc⟩ := p
    intro aggr tPrev hwin hkey hne
    obtain ⟨hlt, hwl, hwin3⟩ := hwin
    have hk : serviceKey svc = k := hkey (t, svc) (List.mem_cons_self _ _)
    have hkey' : ∀ q ∈ ps, serviceKey q.2 = k :=
      fun q hq => hkey q (List.mem_cons_of_mem _ hq)
    have hne' : (foldMerge (mergeService aggr svc) ps).addresses ≠ [] := hne
    have hnle : ¬ (tPrev + DEBOUNCE_TIMEOUT ≤ t) := Nat.not_le.mpr hwl
    have hstep := ih (mergeService aggr svc) t hwin3 hkey' hne'
    have hfd : fireDue ⟨false, [(k, aggr)], [(k, tPrev + DEBOUNCE_TIMEOUT)]⟩ t
        = (⟨false, [(k, aggr)], [(k, tPrev + DEBOUNCE_TIMEOUT)]⟩, []) := by
      unfold fireDue
      simp [hwl, hnle]
    have hpr : processRaw ⟨false, [(k, aggr)], [(k, tPrev + DEBOUNCE_TIMEOUT)]⟩ t
        (RawEvent.found svc)
        = (⟨false, [(k, mergeService aggr svc)], [(k, t + DEBOUNCE_TIMEOUT)]⟩, []) := by
      unfold processRaw
      simp [hk, mapGet, mapSet]
    rw [burstTrace_cons, runTrace_cons, hfd]
    simp only [applyAction]
    rw [hpr]
    simp only [foldMerge_cons]
    rw [hstep]
    simp [lastTime]

theorem emitDue_serviceFound_nonempty (st : BrowseState) (p : String × Nat) (t : Nat)
    (s : Service) (h : emitDue st p = some (t, Emission.serviceFound s)) :
    s.addresses ≠ [] := by
  unfold emitDue at h
  split at h
  next svc heq =>
    split at h
    next hc =>
      simp only [Option.some.injEq, Prod.mk.injEq] at h
      obtain ⟨-, h2⟩ := h
      have hsv : svc = s := by
        injection h2
      exact hsv ▸ (List.length_pos.mp hc.2)
    next => exact absurd h (by simp)
  next => exact absurd h (by simp)

theorem processRaw_snd_shape (st : BrowseState) (now : Nat) (e : RawEvent) :
    (processRaw st now e).2 = []
      ∨ (∃ svc, (processRaw st now e).2 = [(now, Emission.serviceLost svc)])
      ∨ (∃ m, (processRaw st now e).2 = [(now, Emission.error m)]) := by
  unfold processRaw
  split
  · left; rfl
  · cases e with
    | found incoming => left; rfl
    | lost l =>
      cases hm : mapGet st.services (serviceKey l) with
      | some svc => right; left; exact ⟨svc, by simp [hm]⟩
      | none => left; simp [hm]
    | error m => right; right; exact ⟨m, rfl⟩

theorem processRaw_no_found (st : BrowseState) (now t : Nat) (e : RawEvent) (s : Service)
    (h : (t, Emission.serviceFound s) ∈ (processRaw st now e).2) : False := by
  rcases processRaw_snd_shape st now e with hs | ⟨svc, hs⟩ | ⟨m, hs⟩ <;> rw [hs] at h <;>
    simp at h

theorem runTrace_found_nonempty (tr : List (Nat × BAction)) :
    ∀ (st : BrowseState) (t : Nat) (s : Service),
      (t, Emission.serviceFound s) ∈ (runTrace st tr).2 → s.addresses ≠ [] := by
  induction tr with
  | nil =>
    intro st t s h
    have hm : (t, Emission.serviceFound s) ∈ st.pendingEmit.filterMap (emitDue st) := h
    rw [List.mem_filterMap] at hm
    obtain ⟨p, _, hp⟩ := hm
    exact emitDue_serviceFound_nonempty st p t s hp
  | cons q rest ih =>
    obtain ⟨tq, a⟩ := q
    intro st t s h
    rw [runTrace_cons] at h
    simp only [List.mem_append] at h
    rcases h with (h | h) | h
    · have hm : (t, Emission.serviceFound s)
          ∈ (st.pendingEmit.filter (fun p => p.2 ≤ tq)).filterMap (emitDue st) := h
      rw [List.mem_filterMap] at hm
      obtain ⟨p, _, hp⟩ := hm
      exact emitDue_serviceFound_nonempty st p t s hp
    · cases a with
      | raw e => exact absurd h (processRaw_no_found _ tq t e s)
      | stop => exact absurd h (by simp [applyAction])
    · exact ih _ t s h

/-- Claim C3 is false on the code: the normalizer does not remove a bare
trailing `%` (the regex needs at least one character after the last `%`),
and it is not idempotent on strings with two `%` characters: a second
application of the normalizer to `a%b%c` strips again. -/
theorem c3_counterexample :
    normalizeAddr ("a%") = "a%" ∧ ("a%" : String) ≠ "a" ∧
    normalizeAddr (normalizeAddr ("a%b%c")) ≠ normalizeAddr ("a%b%c") := by
  refine ⟨?_, ?_, ?_⟩ <;> decide

/-- Claim C3 (amended): the normalizer removes the final `%` and what
follows it only when at least one character follows the last `%`; a
string with no `%`, or ending in `%`, is unchanged; and normalizing is
idempotent on every string containing at most one `%`. -/
theorem c3_amended (s : String) (pre suf : List Char)
    (hd : s.data = pre ++ '%' :: suf) (h1 : '%' ∉ suf) :
    (suf ≠ [] → normalizeAddr s = String.mk pre) ∧
    (suf = [] → normalizeAddr s = s) ∧
    (∀ t : String, '%' ∉ t.data → normalizeAddr t = t) ∧
    ('%' ∉ pre → normalizeAddr (normalizeAddr s) = normalizeAddr s) := by
  refine ⟨?_, ?_, ?_, ?_⟩
  · intro h2
    exact normalizeAddr_decomp s pre suf hd h1 h2
  · intro h2
    subst h2
    exact normalizeAddr_trailing_percent s pre hd
  · exact fun t ht => normalizeAddr_of_not_mem t ht
  · intro hpre
    by_cases h2 : suf = []
    · subst h2
      have he := normalizeAddr_trailing_percent s pre hd
      rw [he]
      exact he
    · have he := normalizeAddr_decomp s pre suf hd h1 h2
      rw [he]
      exact normalizeAddr_of_not_mem (String.mk pre) hpre

/-- Witness for the amended C3 at the concrete input `a%b`. -/
theorem c3_amended_witness :
    (['b'] ≠ ([] : List Char) → normalizeAddr ("a%b") = String.mk ['a']) ∧
    (['b'] = ([] : List Char) → normalizeAddr ("a%b") = "a%b") ∧
    (∀ t : String, '%' ∉ t.data → normalizeAddr t = t) ∧
    ('%' ∉ ['a'] → normalizeAddr (normalizeAddr ("a%b")) = normalizeAddr ("a%b")) :=
  c3_amended ("a%b") ['a'] ['b'] (by decide) (by decide)

/-- Claim C1 is false on the code: the `Set` union deduplicates the raw
address strings before they are normalized (and entry creation does not
deduplicate at all), so merging the same address once with and once
without its scope suffix leaves a duplicate in the list, and merging the
same scoped address into an existing record changes the address list. -/
theorem c1_counterexample :
    (initService exScoped2).addresses = ["fe80::1", "fe80::1"] ∧
    ¬ (initService exScoped2).addresses.Nodup ∧
    (mergeService (initService exScoped) exScoped).addresses
      = ["fe80::1", "fe80::1"] ∧
    (mergeService (initService exScoped) exScoped).addresses
      ≠ (initService exScoped).addresses := by
  refine ⟨?_, ?_, ?_, ?_⟩ <;> decide

/-- Claim C1 (amended): when no involved address string carries a scope
suffix (no `%`), merging is a set union of the existing and incoming
addresses, merging the same incoming set again is a no-op, and any list
produced by a merge into an existing record is duplicate-free. -/
theorem c1_amended (ex incoming : Service)
    (hex : pfreeService ex) (hinc : pfreeService incoming) :
    (∀ a : String, a ∈ (mergeService ex incoming).addresses
      ↔ (a ∈ ex.addresses ∨ a ∈ incoming.addresses)) ∧
    (mergeService (mergeService ex incoming) incoming).addresses
      = (mergeService ex incoming).addresses ∧
    (mergeService ex incoming).addresses.Nodup := by
  have hm := mergeService_addresses_pfree ex incoming hex hinc
  have hmp := mergeService_pfree ex incoming hex hinc
  refine ⟨?_, ?_, ?_⟩
  · intro a
    rw [hm, mem_dedupFirst, List.mem_append]
  · rw [mergeService_addresses_pfree _ incoming hmp hinc, hm]
    apply dedupFirst_append_absorb
    · exact nodup_dedupFirst _
    · intro y hy
      rw [mem_dedupFirst, List.mem_append]
      exact Or.inr hy
  · rw [hm]
    exact nodup_dedupFirst _

/-- Witness for the amended C1: merging addresses `{A,B}` with `{B,C}`. -/
theorem c1_amended_witness :
    (∀ a : String, a ∈ (mergeService exAB exBC).addresses
      ↔ (a ∈ exAB.addresses ∨ a ∈ exBC.addresses)) ∧
    (mergeService (mergeService exAB exBC) exBC).addresses
      = (mergeService exAB exBC).addresses ∧
    (mergeService exAB exBC).addresses.Nodup :=
  c1_amended exAB exBC (by unfold pfreeService; decide) (by unfold pfreeService; decide)

theorem lookupTxt_getD (o : Option (List (String × String))) (k : String) :
    mapGet (o.getD []) k = lookupTxt o k := by
  cases o <;> rfl

theorem mergeService_txt_some (ex incoming : Service) (t : List (String × String))
    (h : incoming.txt = some t) :
    (mergeService ex incoming).txt = some (txtMerge (ex.txt.getD []) t) := by
  show (match incoming.txt with
    | some u => some (txtMerge (ex.txt.getD []) u)
    | none => ex.txt) = _
  rw [h]

theorem mergeService_txt_none (ex incoming : Service) (h : incoming.txt = none) :
    (mergeService ex incoming).txt = ex.txt := by
  show (match incoming.txt with
    | some u => some (txtMerge (ex.txt.getD []) u)
    | none => ex.txt) = _
  rw [h]

theorem mergeService_ttl (ex incoming : Service) :
    (mergeService ex incoming).ttl
      = match incoming.ttl with
        | some n => if n ≠ 0 then some n else ex.ttl
        | none => ex.ttl := rfl

/-- Claim C7: merging into an existing entry overwrites `hostName` and
`port` unconditionally, merges `txt` key-by-key with incoming keys
winning and absent keys surviving (including the spec's concrete
instance), and overwrites `ttl` exactly when the incoming one is present
and non-zero. -/
theorem c7_merge_fields (ex incoming : Service) :
    (mergeService ex incoming).hostName = incoming.hostName ∧
    (mergeService ex incoming).port = incoming.port ∧
    (∀ t : List (String × String), incoming.txt = some t →
      (t.map Prod.fst).Nodup → ∀ key : String,
        lookupTxt (mergeService ex incoming).txt key
          = match mapGet t key with
            | some v => some v
            | none => lookupTxt ex.txt key) ∧
    (incoming.txt = none → (mergeService ex incoming).txt = ex.txt) ∧
    (txtMerge [("a", "1")] [("a", "2"), ("b", "3")] = [("a", "2"), ("b", "3")]) ∧
    (∀ n : Nat, incoming.ttl = some n → n ≠ 0 →
      (mergeService ex incoming).ttl = some n) ∧
    (incoming.ttl = some 0 → (mergeService ex incoming).ttl = ex.ttl) ∧
    (incoming.ttl = none → (mergeService ex incoming).ttl = ex.ttl) := by
  refine ⟨rfl, rfl, ?_, mergeService_txt_none ex incoming, by decide, ?_, ?_, ?_⟩
  · intro t htxt hnd key
    rw [mergeService_txt_some ex incoming t htxt]
    show mapGet (txtMerge (ex.txt.getD []) t) key = _
    rw [mapGet_txtMerge t (ex.txt.getD []) hnd key]
    cases hr : mapGet t key with
    | some v => rfl
    | none => exact lookupTxt_getD ex.txt key
  · intro n httl hn
    rw [mergeService_ttl, httl]
    simp [hn]
  · intro httl
    rw [mergeService_ttl, httl]
    simp
  · intro httl
    rw [mergeService_ttl, httl]

/-- Witness for C7 at a concrete pair of records realizing the spec's
TXT example. -/
theorem c7_merge_fields_witness :
    (mergeService exTxtOld exTxtNew).hostName = exTxtNew.hostName ∧
    (mergeService exTxtOld exTxtNew).port = exTxtNew.port ∧
    (∀ t : List (String × String), exTxtNew.txt = some t →
      (t.map Prod.fst).Nodup → ∀ key : String,
        lookupTxt (mergeService exTxtOld exTxtNew).txt key
          = match mapGet t key with
            | some v => some v
            | none => lookupTxt exTxtOld.txt key) ∧
    (exTxtNew.txt = none → (mergeService exTxtOld exTxtNew).txt = exTxtOld.txt) ∧
    (txtMerge [("a", "1")] [("a", "2"), ("b", "3")] = [("a", "2"), ("b", "3")]) ∧
    (∀ n : Nat, exTxtNew.ttl = some n → n ≠ 0 →
      (mergeService exTxtOld exTxtNew).ttl = some n) ∧
    (exTxtNew.ttl = some 0 → (mergeService exTxtOld exTxtNew).ttl = exTxtOld.ttl) ∧
    (exTxtNew.ttl = none → (mergeService exTxtOld exTxtNew).ttl = exTxtOld.ttl) :=
  c7_merge_fields exTxtOld exTxtNew

theorem stopB_of_not_stopped (st : BrowseState) (h : st.stopped = false) :
    stopB st = ({ st with stopped := true, pendingEmit := [] }, true) := by
  unfold stopB
  rw [if_neg (by simp [h])]

theorem stopAdv_of_stopped (st : AdvertiseState) (h : st.stopped = true) :
    stopAdv st = (st, false) := by
  unfold stopAdv
  rw [if_pos h]

theorem stopAdv_of_not_stopped (st : AdvertiseState) (h : st.stopped = false) :
    stopAdv st = ({ stopped := true }, true) := by
  unfold stopAdv
  rw [if_neg (by simp [h])]

theorem stopTimesB_of_stopped (n : Nat) :
    ∀ st : BrowseState, st.stopped = true → stopTimesB st n = 0 := by
  induction n with
  | zero => intro st _; rfl
  | succ m ih =>
    intro st h
    show (if (stopB st).2 then 1 else 0) + stopTimesB (stopB st).1 m = 0
    rw [stopB_of_stopped st h]
    simpa using ih st h

theorem stopTimesAdv_of_stopped (n : Nat) :
    ∀ st : AdvertiseState, st.stopped = true → stopTimesAdv st n = 0 := by
  induction n with
  | zero => intro st _; rfl
  | succ m ih =>
    intro st h
    show (if (stopAdv st).2 then 1 else 0) + stopTimesAdv (stopAdv st).1 m = 0
    rw [stopAdv_of_stopped st h]
    simpa using ih st h

/-- Claim C8: `stop()` is idempotent on both session kinds — a second
call is a no-op returning no backend release — and across any positive
number of consecutive `stop()` calls the backend handle is released
exactly once, on the first call. -/
theorem c8_stop_idempotent (bst : BrowseState) (ast : AdvertiseState) (n : Nat)
    (hn : 0 < n) (hb : bst.stopped = false) (ha : ast.stopped = false) :
    stopB (stopB bst).1 = ((stopB bst).1, false) ∧
    (stopB bst).1.stopped = true ∧
    (stopB bst).2 = true ∧
    stopTimesB bst n = 1 ∧
    stopAdv (stopAdv ast).1 = ((stopAdv ast).1, false) ∧
    (stopAdv ast).1.stopped = true ∧
    (stopAdv ast).2 = true ∧
    stopTimesAdv ast n = 1 ∧
    (∀ b : BrowseState, b.stopped = true → stopB b = (b, false)) ∧
    (∀ a : AdvertiseState, a.stopped = true → stopAdv a = (a, false)) := by
  obtain ⟨m, rfl⟩ : ∃ m, n = m + 1 :=
    ⟨n - 1, (Nat.succ_pred_eq_of_pos hn).symm⟩
  rw [stopB_of_not_stopped bst hb, stopAdv_of_not_stopped ast ha]
  refine ⟨stopB_of_stopped _ rfl, rfl, rfl, ?_, stopAdv_of_stopped _ rfl, rfl, rfl, ?_,
    stopB_of_stopped, stopAdv_of_stopped⟩
  · show (if (stopB bst).2 then 1 else 0) + stopTimesB (stopB bst).1 m = 1
    rw [stopB_of_not_stopped bst hb]
    simpa using stopTimesB_of_stopped m _ rfl
  · show (if (stopAdv ast).2 then 1 else 0) + stopTimesAdv (stopAdv ast).1 m = 1
    rw [stopAdv_of_not_stopped ast ha]
    simpa using stopTimesAdv_of_stopped m _ rfl

/-- Witness for C8 on fresh sessions and three consecutive stops. -/
theorem c8_stop_idempotent_witness :
    stopB (stopB initB).1 = ((stopB initB).1, false) ∧
    (stopB initB).1.stopped = true ∧
    (stopB initB).2 = true ∧
    stopTimesB initB 3 = 1 ∧
    stopAdv (stopAdv ⟨false⟩).1 = ((stopAdv ⟨false⟩).1, false) ∧
    (stopAdv (⟨false⟩ : AdvertiseState)).1.stopped = true ∧
    (stopAdv (⟨false⟩ : AdvertiseState)).2 = true ∧
    stopTimesAdv ⟨false⟩ 3 = 1 ∧
    (∀ b : BrowseState, b.stopped = true → stopB b = (b, false)) ∧
    (∀ a : AdvertiseState, a.stopped = true → stopAdv a = (a, false)) :=
  c8_stop_idempotent initB ⟨false⟩ 3 (by decide) rfl rfl

theorem advProcessRaw_not_stopped (st : AdvertiseState) (h : st.stopped = false)
    (e : AdvRawEvent) : advProcessRaw st e = [advTranslate e] := by
  unfold advProcessRaw
  rw [if_neg (by simp [h])]
  cases e <;> rfl

theorem advProcessRaw_of_stopped (st : AdvertiseState) (h : st.stopped = true)
    (e : AdvRawEvent) : advProcessRaw st e = [] := by
  unfold advProcessRaw
  rw [if_pos h]

theorem runAdvTrace_raws (es : List AdvRawEvent) (st : AdvertiseState)
    (h : st.stopped = false) :
    (runAdvTrace st (es.map AdvAction.raw)).2 = es.map advTranslate := by
  induction es with
  | nil => rfl
  | cons e rest ih =>
    show (advProcessRaw st e ++ (runAdvTrace st (rest.map AdvAction.raw)).2) = _
    rw [advProcessRaw_not_stopped st h e, ih]
    rfl

theorem runAdvTrace_stopped (tr : List AdvAction) :
    ∀ st : AdvertiseState, st.stopped = true → (runAdvTrace st tr).2 = [] := by
  induction tr with
  | nil => intro st _; rfl
  | cons a rest ih =>
    intro st h
    cases a with
    | raw e =>
      show (advProcessRaw st e ++ (runAdvTrace st rest).2) = []
      rw [advProcessRaw_of_stopped st h e, ih st h]
      rfl
    | stop =>
      show (runAdvTrace (stopAdv st).1 rest).2 = []
      rw [stopAdv_of_stopped st h]
      exact ih st h

/-- Claim C9: while not stopped, the advertise session forwards each raw
`Registered` and `Error` event verbatim and one-to-one, with no merging
or debouncing; from a stopped session no event of any kind is ever
forwarded. -/
theorem c9_advertise_relay (st stp : AdvertiseState) (es : List AdvRawEvent)
    (tr : List AdvAction) (hs : st.stopped = false) (hw : stp.stopped = true) :
    (∀ nm : String,
      advProcessRaw st (AdvRawEvent.registered nm) = [AdvEmission.registered nm]) ∧
    (∀ m : String, advProcessRaw st (AdvRawEvent.error m) = [AdvEmission.error m]) ∧
    (runAdvTrace st (es.map AdvAction.raw)).2 = es.map advTranslate ∧
    (runAdvTrace stp tr).2 = [] :=
  ⟨fun nm => advProcessRaw_not_stopped st hs (AdvRawEvent.registered nm),
   fun m => advProcessRaw_not_stopped st hs (AdvRawEvent.error m),
   runAdvTrace_raws es st hs,
   runAdvTrace_stopped tr stp hw⟩

/-- Witness for C9 on a concrete event list and post-stop trace. -/
theorem c9_advertise_relay_witness :
    (∀ nm : String, advProcessRaw ⟨false⟩ (AdvRawEvent.registered nm)
      = [AdvEmission.registered nm]) ∧
    (∀ m : String, advProcessRaw ⟨false⟩ (AdvRawEvent.error m)
      = [AdvEmission.error m]) ∧
    (runAdvTrace ⟨false⟩ ([AdvRawEvent.registered ("svc"),
        AdvRawEvent.error ("fail")].map AdvAction.raw)).2
      = [AdvRawEvent.registered ("svc"), AdvRawEvent.error ("fail")].map advTranslate ∧
    (runAdvTrace ⟨true⟩ [AdvAction.raw (AdvRawEvent.registered ("svc")),
        AdvAction.stop, AdvAction.raw (AdvRawEvent.error ("fail"))]).2 = [] :=
  c9_advertise_relay ⟨false⟩ ⟨true⟩ _ _ rfl rfl

/-- Claim C10: the table key is the string `name + "|" + type + "|" +
domain`, so the distinct identities `("a|b", "c", "d")` and
`("a", "b|c", "d")` collide; their `found` events end up in one table
entry and produce a single merged notification stream. -/
theorem c10_key_collision :
    (exPipe1.name, exPipe1.type, exPipe1.domain)
      ≠ (exPipe2.name, exPipe2.type, exPipe2.domain) ∧
    serviceKey exPipe1 = serviceKey exPipe2 ∧
    ((runTrace initB [(0, BAction.raw (RawEvent.found exPipe1)),
        (10, BAction.raw (RawEvent.found exPipe2))]).1.services.map Prod.fst
      = [serviceKey exPipe1]) ∧
    ((runTrace initB [(0, BAction.raw (RawEvent.found exPipe1)),
        (10, BAction.raw (RawEvent.found exPipe2))]).2
      = [(110, Emission.serviceFound (mergeService (initService exPipe1) exPipe2))]) := by
  refine ⟨?_, ?_, ?_, ?_⟩ <;> decide

/-- Claim C2 is false on the code for `serviceLost`: a record created by
a `found` event carrying no addresses is delivered to the caller by the
`lost` handler with an empty address set (the emptiness guard exists only
in the debounce callback). -/
theorem c2_counterexample :
    (runTrace initB [(0, BAction.raw (RawEvent.found exEmptyAddrs)),
        (10, BAction.raw (RawEvent.lost exEmptyAddrs))]).2
      = [(10, Emission.serviceLost (initService exEmptyAddrs))] ∧
    (initService exEmptyAddrs).addresses = [] := by
  refine ⟨?_, ?_⟩ <;> decide

/-- Claim C2 (amended): in any run from any state, every `serviceFound`
notification carries a non-empty address set (a debounce expiry with an
empty merged set emits nothing), and a debounce expiry never changes the
service table; the guarantee does not extend to `serviceLost`. -/
theorem c2_amended (st : BrowseState) (tr : List (Nat × BAction)) (t : Nat)
    (s : Service) (h : (t, Emission.serviceFound s) ∈ (runTrace st tr).2) :
    s.addresses ≠ [] ∧
    ∀ (st2 : BrowseState) (t2 : Nat),
      (fireDue st2 t2).1.services = st2.services ∧
      (fireAll st2).1.services = st2.services :=
  ⟨runTrace_found_nonempty tr st t s h, fun _ _ => ⟨rfl, rfl⟩⟩

/-- Witness for the amended C2 on a run that emits one `serviceFound`. -/
theorem c2_amended_witness :
    (initService exA).addresses ≠ [] ∧
    ∀ (st2 : BrowseState) (t2 : Nat),
      (fireDue st2 t2).1.services = st2.services ∧
      (fireAll st2).1.services = st2.services :=
  c2_amended initB [(0, BAction.raw (RawEvent.found exA))] 100 (initService exA)
    (by decide)

/-- Claim C4 is false as stated: a contiguous burst whose merged address
set is empty emits no `serviceFound` at all, and for a scoped address the
emitted set is the normalized one, not the union of the events' raw
addresses. -/
theorem c4_counterexample :
    (runTrace initB (burstTrace [(0, exEmptyAddrs)])).2 = [] ∧
    (runTrace initB (burstTrace [(0, exScoped)])).2
      = [(100, Emission.serviceFound (initService exScoped))] ∧
    (initService exScoped).addresses = ["fe80::1"] ∧
    exScoped.addresses = ["fe80::1%eth0"] := by
  refine ⟨?_, ?_, ?_, ?_⟩ <;> decide

/-- Claim C4 (amended): for a contiguous burst of `found` events for one
identity in a fresh unstopped session — each later event arriving
strictly within the debounce window of the previous one — whose addresses
carry no scope suffix and whose merged address set is non-empty, exactly
one `serviceFound` is emitted, one debounce interval after the last
event, and it carries exactly the union of the addresses of all events
of the burst. -/
theorem c4_amended (t0 : Nat) (s0 : Service) (rest : List (Nat × Service))
    (hwin : withinWindow t0 rest)
    (hkey : ∀ p ∈ rest, serviceKey p.2 = serviceKey s0)
    (hfree0 : pfreeService s0) (hfree : ∀ p ∈ rest, pfreeService p.2)
    (hne : (foldMerge (initService s0) rest).addresses ≠ []) :
    (runTrace initB (burstTrace ((t0, s0) :: rest))).2
      = [(lastTime t0 rest + DEBOUNCE_TIMEOUT,
          Emission.serviceFound (foldMerge (initService s0) rest))] ∧
    (∀ a : String, a ∈ (foldMerge (initService s0) rest).addresses
      ↔ (a ∈ s0.addresses ∨ ∃ p ∈ rest, a ∈ p.2.addresses)) := by
  constructor
  · have hfd : fireDue initB t0 = (initB, []) := rfl
    have hpr : processRaw initB t0 (RawEvent.found s0)
        = (⟨false, [(serviceKey s0, initService s0)],
            [(serviceKey s0, t0 + DEBOUNCE_TIMEOUT)]⟩, []) := rfl
    rw [burstTrace_cons, runTrace_cons, hfd]
    simp only [applyAction]
    rw [hpr, runTrace_burst_go (serviceKey s0) rest (initService s0) t0 hwin hkey hne]
    simp
  · intro a
    rw [foldMerge_mem rest (initService s0) (initService_pfree s0 hfree0) hfree a,
      initService_addresses_pfree s0 hfree0]

/-- Witness for the amended C4 at the spec's instance: `X` at t=0 and `Y`
at t=50 for the same identity yield one emission at t=150 whose address
set is the union. -/
theorem c4_amended_witness :
    (runTrace initB (burstTrace [(0, exX), (50, exY)])).2
      = [(150, Emission.serviceFound (foldMerge (initService exX) [(50, exY)]))] ∧
    (∀ a : String, a ∈ (foldMerge (initService exX) [(50, exY)]).addresses
      ↔ (a ∈ exX.addresses ∨ ∃ p ∈ [(50, exY)], a ∈ p.2.addresses)) := by
  have h := c4_amended 0 exX [(50, exY)] ⟨by decide, by decide, trivial⟩
    (by decide) (by unfold pfreeService; decide)
    (by intro p hp; fin_cases hp; unfold pfreeService; decide) (by decide)
  exact h

/-- Claim C5: from any stopped browse state — even one still holding
table entries and scheduled timers — no trace of raw events, timer
expiries or further stops produces any notification, and the state stays
stopped; moreover `stop()` on a live session marks it stopped and cancels
every pending timer. -/
theorem c5_stop_silences (st stf : BrowseState) (tr : List (Nat × BAction))
    (h : st.stopped = true) (hf : stf.stopped = false) :
    (runTrace st tr).2 = [] ∧
    (runTrace st tr).1.stopped = true ∧
    (stopB stf).1.stopped = true ∧
    (stopB stf).1.pendingEmit = [] := by
  obtain ⟨h1, h2⟩ := runTrace_stopped tr st h
  rw [stopB_of_not_stopped stf hf]
  exact ⟨h1, h2, rfl, rfl⟩

/-- Witness for C5: a stopped state with a live table entry and a
scheduled timer stays silent across a trace of late events. -/
theorem c5_stop_silences_witness :
    (runTrace exStoppedB exLateTrace).2 = [] ∧
    (runTrace exStoppedB exLateTrace).1.stopped = true ∧
    (stopB initB).1.stopped = true ∧
    (stopB initB).1.pendingEmit = [] :=
  c5_stop_silences exStoppedB initB exLateTrace rfl rfl

theorem runTrace_found_lost (s : Service) (t1 t2 : Nat)
    (hlt : t2 < t1 + DEBOUNCE_TIMEOUT) :
    runTrace initB [(t1, BAction.raw (RawEvent.found s)),
        (t2, BAction.raw (RawEvent.lost s))]
      = (⟨false, [], []⟩, [(t2, Emission.serviceLost (initService s))]) := by
  have hnle : ¬ (t1 + DEBOUNCE_TIMEOUT ≤ t2) := Nat.not_le.mpr hlt
  have hfd1 : fireDue initB t1 = (initB, []) := rfl
  have hpr1 : processRaw initB t1 (RawEvent.found s)
      = (⟨false, [(serviceKey s, initService s)],
          [(serviceKey s, t1 + DEBOUNCE_TIMEOUT)]⟩, []) := rfl
  have hfd2 : fireDue ⟨false, [(serviceKey s, initService s)],
      [(serviceKey s, t1 + DEBOUNCE_TIMEOUT)]⟩ t2
      = (⟨false, [(serviceKey s, initService s)],
          [(serviceKey s, t1 + DEBOUNCE_TIMEOUT)]⟩, []) := by
    unfold fireDue
    simp [hlt, hnle]
  have hpr2 : processRaw ⟨false, [(serviceKey s, initService s)],
      [(serviceKey s, t1 + DEBOUNCE_TIMEOUT)]⟩ t2 (RawEvent.lost s)
      = (⟨false, [], []⟩, [(t2, Emission.serviceLost (initService s))]) := by
    unfold processRaw
    simp [mapGet, mapDel]
  rw [show [(t1, BAction.raw (RawEvent.found s)), (t2, BAction.raw (RawEvent.lost s))]
      = (t1, BAction.raw (RawEvent.found s))
        :: [(t2, BAction.raw (RawEvent.lost s))] from rfl,
    runTrace_cons, hfd1]
  simp only [applyAction]
  rw [hpr1]
  rw [show ([(t2, BAction.raw (RawEvent.lost s))] : List (Nat × BAction))
      = (t2, BAction.raw (RawEvent.lost s)) :: [] from rfl, runTrace_cons, hfd2]
  simp only [applyAction]
  rw [hpr2]
  rfl

/-- Claim C6: in an unstopped session a `lost` event for a present
identity removes its entry, cancels its pending timer and emits exactly
one `serviceLost` with the stored aggregate; a `lost` event for an absent
identity changes nothing and emits nothing; and `found` at t1 followed by
`lost` at t2 before the debounce fires yields zero `serviceFound` and
exactly one `serviceLost`. -/
theorem c6_lost_behavior (st : BrowseState) (l s : Service) (t t1 t2 : Nat)
    (hs : st.stopped = false) (hnd : (st.services.map Prod.fst).Nodup)
    (hlt : t2 < t1 + DEBOUNCE_TIMEOUT) :
    (∀ svc : Service, mapGet st.services (serviceKey l) = some svc →
      (processRaw st t (RawEvent.lost l)).2 = [(t, Emission.serviceLost svc)] ∧
      mapGet (processRaw st t (RawEvent.lost l)).1.services (serviceKey l) = none ∧
      (∀ p ∈ (processRaw st t (RawEvent.lost l)).1.pendingEmit,
        p.1 ≠ serviceKey l)) ∧
    (mapGet st.services (serviceKey l) = none →
      processRaw st t (RawEvent.lost l) = (st, [])) ∧
    ((runTrace initB [(t1, BAction.raw (RawEvent.found s)),
        (t2, BAction.raw (RawEvent.lost s))]).2
      = [(t2, Emission.serviceLost (initService s))]) := by
  refine ⟨?_, ?_, ?_⟩
  · intro svc hm
    have hred : processRaw st t (RawEvent.lost l)
        = (⟨st.stopped, mapDel st.services (serviceKey l),
            st.pendingEmit.filter (fun p => p.1 ≠ serviceKey l)⟩,
           [(t, Emission.serviceLost svc)]) := by
      unfold processRaw
      rw [if_neg (by simp [hs])]
      simp [hm]
    rw [hred]
    refine ⟨rfl, mapGet_mapDel_self st.services (serviceKey l) hnd, ?_⟩
    intro p hp
    have := List.mem_filter.mp hp
    simpa using this.2
  · intro hm
    unfold processRaw
    rw [if_neg (by simp [hs])]
    simp [hm]
  · rw [runTrace_found_lost s t1 t2 hlt]

/-- Witness for C6 on a live single-entry state and the spec's t=0 /
t=10 timing. -/
theorem c6_lost_behavior_witness :
    (∀ svc : Service, mapGet exLiveB.services (serviceKey exX) = some svc →
      (processRaw exLiveB 7 (RawEvent.lost exX)).2 = [(7, Emission.serviceLost svc)] ∧
      mapGet (processRaw exLiveB 7 (RawEvent.lost exX)).1.services (serviceKey exX)
        = none ∧
      (∀ p ∈ (processRaw exLiveB 7 (RawEvent.lost exX)).1.pendingEmit,
        p.1 ≠ serviceKey exX)) ∧
    (mapGet exLiveB.services (serviceKey exX) = none →
      processRaw exLiveB 7 (RawEvent.lost exX) = (exLiveB, [])) ∧
    ((runTrace initB [(0, BAction.raw (RawEvent.found exY)),
        (10, BAction.raw (RawEvent.lost exY))]).2
      = [(10, Emission.serviceLost (initService exY))]) :=
  c6_lost_behavior exLiveB exX exY 7 0 10 rfl (by decide) (by decide)

end DnsSd
